import Mathlib

/-!
# Verification of the `wwislop8` FutureComposer → PICO-8 converter

Shallow embedding of `wwislop8.py`.  Python byte buffers are modelled as
`List Nat` (each element a byte value), Python strings as `List Char`.
Out-of-range byte reads inside a slice are modelled by `List.getD _ _ 0`;
every theorem below that depends on a byte value restricts attention to
in-range reads, where this agrees with the Python source.  Fallible
decoding steps (a `struct.error`, the `NameError` raised on an
unrecognized magic tag, an `IndexError` while decoding a sequence
record) are modelled with `Except`.
-/

namespace Wwislop8

/-- Python hexadecimal digit characters, as produced by `%x` (lowercase). -/
def hexDigitChar (n : Nat) : Char :=
  if n < 10 then Char.ofNat (48 + n) else Char.ofNat (87 + n)

/-- The digit list of `n` in base 16, as produced by Python `%x`. -/
def natToHex (n : Nat) : List Char :=
  if _h : n < 16 then [hexDigitChar n]
  else natToHex (n / 16) ++ [hexDigitChar (n % 16)]
termination_by n
decreasing_by
  exact Nat.div_lt_self (Nat.lt_of_lt_of_le (by norm_num) (Nat.le_of_not_lt _h)) (by norm_num)

/-- The digit list of `n` in base 10, as produced by Python `%d`. -/
def natToDec (n : Nat) : List Char :=
  if _h : n < 10 then [Char.ofNat (48 + n)]
  else natToDec (n / 10) ++ [Char.ofNat (48 + n % 10)]
termination_by n
decreasing_by
  exact Nat.div_lt_self (Nat.lt_of_lt_of_le (by norm_num) (Nat.le_of_not_lt _h)) (by norm_num)

/-- Python `"%02x" % n` for a natural number: hex digits left-padded
with `'0'` to width two. -/
def fmtHex02Nat (n : Nat) : List Char :=
  List.replicate (2 - (natToHex n).length) '0' ++ natToHex n

/-- Python `"%02x" % n` for an `int`: a negative value prints a minus
sign followed by the hex digits of its absolute value. -/
def fmtHex02Int (n : Int) : List Char :=
  if n < 0 then '-' :: natToHex n.natAbs else fmtHex02Nat n.toNat

/-- Python `"%d" % n` for an `int`. -/
def fmtDecInt (n : Int) : List Char :=
  if n < 0 then '-' :: natToDec n.natAbs else natToDec n.toNat

/-- Big-endian `int.from_bytes`: fold the byte list most significant
byte first. -/
def bytesToNatBE (l : List Nat) : Nat :=
  l.foldl (fun acc b => acc * 256 + b) 0

/-- `int.from_bytes(contents[off:off+len], byteorder='big')`. -/
def readBE (contents : List Nat) (off len : Nat) : Nat :=
  bytesToNatBE ((contents.drop off).take len)

/-- One row of a `PICO8Pattern` (`PICO8Pattern.Row` in the source). -/
structure P8Row where
  note : Int
  instrument : Nat
  volume : Nat
  effect : Nat
deriving DecidableEq

/-- `PICO8Pattern.Row.format`: `"%02x%d%d%d" % (note, instrument, volume, effect)`. -/
def P8Row.format (r : P8Row) : List Char :=
  fmtHex02Int r.note ++ natToDec r.instrument ++ natToDec r.volume ++ natToDec r.effect

/-- A PICO-8 pattern: 32 optional rows (`None` = empty row) plus a speed. -/
structure PICO8Pattern where
  rows : List (Option P8Row)
  speed : Int
deriving DecidableEq

/-- The row-rendering conditional of `PICO8Pattern.format`:
`row.format() if row is not None else "00000"`. -/
def renderRowOpt : Option P8Row → List Char
  | some row => row.format
  | none => "00000".toList

/-- `PICO8Pattern.format`: `reduce` over the rows starting from
`"01%02x0000" % speed`, appending `row.format()` for a populated row
and the literal `"00000"` for an empty one. -/
def PICO8Pattern.format (p : PICO8Pattern) : List Char :=
  p.rows.foldl (fun acc r => acc ++ renderRowOpt r)
    ("01".toList ++ fmtHex02Int p.speed ++ "0000".toList)

/-- A PICO-8 sequence: 4 channel slots, each holding a pattern index or
`None` (channel disabled). -/
structure PICO8Sequence where
  channels : List (Option Nat)
deriving DecidableEq

/-- The per-channel conditional of `PICO8Sequence.format`: channel `i`
renders as `"%02x" % channels[i]` when it holds a pattern index and as
`"%02x" % (0x40 + i + 1)` when it is disabled. -/
def channelCode (c : Option Nat) (i : Nat) : List Char :=
  match c with
  | some p => fmtHex02Nat p
  | none => fmtHex02Nat (0x40 + i + 1)

/-- `PICO8Sequence.format`: the literal `"00 "` then the 4 channel
codes in channel order. -/
def PICO8Sequence.format (s : PICO8Sequence) : List Char :=
  (List.range 4).foldl (fun acc i => acc ++ channelCode (s.channels.getD i none) i)
    "00 ".toList

/-- `FutureComposerModule.Sample`: three big-endian 16-bit fields. -/
structure Sample where
  length : Nat
  loop_start : Nat
  loop_length : Nat
deriving DecidableEq

/-- `Sample.__init__(data)`. -/
def decodeSample (data : List Nat) : Sample :=
  ⟨bytesToNatBE (data.take 2),
   bytesToNatBE ((data.drop 2).take 2),
   bytesToNatBE ((data.drop 4).take 2)⟩

/-- `FutureComposerModule.Voice`: channel number plus the three bytes of
one voice record. -/
structure Voice where
  num : Nat
  pattern : Nat
  transpose : Nat
  sound_transpose : Nat
deriving DecidableEq

/-- `Voice.hash`: `pattern + transpose*0x100 + sound_transpose*0x10000`. -/
def Voice.hash (v : Voice) : Nat :=
  v.pattern + v.transpose * 0x100 + v.sound_transpose * 0x10000

/-- `FutureComposerModule.Sequence`: 4 voices plus a speed byte. -/
structure Sequence where
  voices : List Voice
  speed : Nat
deriving DecidableEq

/-- `Voice.__init__(num, data)`: reads `data[0]`, `data[1]`, `data[2]`. -/
def decodeVoice (num : Nat) (data : List Nat) : Voice :=
  ⟨num, data.getD 0 0, data.getD 1 0, data.getD 2 0⟩

/-- `Sequence.__init__(data)`: 4 voices from consecutive 3-byte groups,
then the speed byte at `data[12]`.  Indexing a slice shorter than 13
bytes raises `IndexError` in Python, modelled by `none`. -/
def decodeSequence (data : List Nat) : Option Sequence :=
  if 13 ≤ data.length then
    some ⟨[decodeVoice 0 data, decodeVoice 1 (data.drop 3),
           decodeVoice 2 (data.drop 6), decodeVoice 3 (data.drop 9)],
          data.getD 12 0⟩
  else none

/-- The command-line arguments consumed by the core (`args.start`,
`args.end`, `args.speed`, `args.transpose`).  `end` is a Lean keyword,
hence the field name `endArg`. -/
structure Args where
  start : Int
  endArg : Int
  speed : Int
  transpose : Int
deriving DecidableEq

/-- Errors that abort `FutureComposerModule.__init__`:
`structError` for `struct.unpack('4s', ...)` on fewer than 4 bytes;
`nameError n` for a `NameError` raised on evaluating the unbound name
`n` (the source's `sys.exit("Unknown format: %s" % magic)` references
the unbound local `magic` instead of `self.magic`);
`indexError` for an `IndexError` while decoding a sequence record. -/
inductive DecodeError where
  | structError : DecodeError
  | nameError : String → DecodeError
  | indexError : DecodeError
deriving DecidableEq

/-- The bytes of `b'SMOD'`. -/
def smodMagic : List Nat := [83, 77, 79, 68]

/-- The bytes of `b'FC14'`. -/
def fc14Magic : List Nat := [70, 67, 49, 52]

/-- `if hash not in self.used_patterns: self.used_patterns.append(hash)`. -/
def insertUsed (acc : List Nat) (k : Nat) : List Nat :=
  if k ∈ acc then acc else acc ++ [k]

/-- The first pass of `__init__`: iterate all voices across all in-scope
sequences (sequence order, then channel order), appending each voice's
hash to the used-pattern list when not already present. -/
def buildUsedPatterns (seqs : List Sequence) : List Nat :=
  seqs.foldl (fun acc s => s.voices.foldl (fun a v => insertUsed a v.hash) acc) []

/-- The sequence-decoding loop of `__init__`:
`for i in range(num_sequences): if i >= args.start and (i <= args.end or args.end == -1): append Sequence(contents[sequence_offset+i*13:])`. -/
def decodeSequencesAux (contents : List Nat) (seqOff : Nat) (astart aend : Int) :
    List Nat → List Sequence → Except DecodeError (List Sequence)
  | [], acc => .ok acc
  | i :: is, acc =>
    if astart ≤ (i : Int) ∧ ((i : Int) ≤ aend ∨ aend = -1) then
      match decodeSequence (contents.drop (seqOff + i * 13)) with
      | some s => decodeSequencesAux contents seqOff astart aend is (acc ++ [s])
      | none => .error .indexError
    else decodeSequencesAux contents seqOff astart aend is acc

/-- The state built by `FutureComposerModule.__init__`. -/
structure FCModule where
  args : Args
  contents : List Nat
  magic : List Nat
  sequence_data_size : Nat
  pattern_offset : Nat
  pattern_data_size : Nat
  freqmod_offset : Nat
  freqmod_data_size : Nat
  volume_offset : Nat
  volume_data_size : Nat
  sample_offset : Nat
  wavetable_offset : Option Nat
  sample_data_size : Option Nat
  sequence_offset : Nat
  samples : List Sample
  sequences : List Sequence
  used_patterns : List Nat
  overflow_warning : Bool
deriving DecidableEq

/-- `FutureComposerModule.__init__`: magic check, header fields, sample
records, windowed sequence decoding, used-pattern discovery, and the
(non-fatal) 64-pattern overflow warning, modelled as a `Bool` field. -/
def decodeModule (args : Args) (contents : List Nat) : Except DecodeError FCModule :=
  if contents.length < 4 then .error .structError
  else
    let magic := contents.take 4
    if magic ≠ smodMagic ∧ magic ≠ fc14Magic then
      .error (.nameError "magic")
    else
      let sequence_data_size := readBE contents 4 4
      let pattern_offset := readBE contents 8 4
      let pattern_data_size := readBE contents 12 4
      let freqmod_offset := readBE contents 16 4
      let freqmod_data_size := readBE contents 20 4
      let volume_offset := readBE contents 24 4
      let volume_data_size := readBE contents 28 4
      let sample_offset := readBE contents 32 4
      let wavetable_offset := if magic = fc14Magic then some (readBE contents 36 4) else none
      let sample_data_size := if magic = smodMagic then some (readBE contents 36 4) else none
      let sequence_offset := if magic = fc14Magic then 180 else 100
      let samples := (List.range 10).map (fun i => decodeSample (contents.drop (40 + i * 6)))
      let num_sequences := sequence_data_size / 13
      match decodeSequencesAux contents sequence_offset args.start args.endArg
              (List.range num_sequences) [] with
      | .error e => .error e
      | .ok seqs =>
        let used := buildUsedPatterns seqs
        .ok { args := args
              contents := contents
              magic := magic
              sequence_data_size := sequence_data_size
              pattern_offset := pattern_offset
              pattern_data_size := pattern_data_size
              freqmod_offset := freqmod_offset
              freqmod_data_size := freqmod_data_size
              volume_offset := volume_offset
              volume_data_size := volume_data_size
              sample_offset := sample_offset
              wavetable_offset := wavetable_offset
              sample_data_size := sample_data_size
              sequence_offset := sequence_offset
              samples := samples
              sequences := seqs
              used_patterns := used
              overflow_warning := decide (64 < used.length) }

/-- Advisory diagnostics printed by `convert_patterns`: a clamping
warning names the source pattern number. -/
inductive Warning where
  | noteAbove : Nat → Warning
  | noteBelow : Nat → Warning
deriving DecidableEq

/-- The body of the row loop of `convert_patterns` for one row:
a zero note byte leaves the row empty; a nonzero note byte `N` yields
`N + 24 + pat_transpose + args.transpose`, clamped to 63 from above
(with a warning) and then to 0 from below (with a warning), instrument
`info & 7`, volume 4, effect 0. -/
def rowConvert (transposeArg : Int) (pat_num : Nat) (pat_transpose : Int)
    (block : List Nat) (row : Nat) : Option P8Row × List Warning :=
  let note0 := block.getD (row * 2) 0
  if 0 < note0 then
    let info := block.getD (row * 2 + 1) 0
    let note1 : Int := (note0 : Int) + 24 + pat_transpose + transposeArg
    let s1 : Int × List Warning :=
      if 63 < note1 then (63, [Warning.noteAbove pat_num]) else (note1, [])
    let s2 : Int × List Warning :=
      if s1.1 < 0 then (0, [Warning.noteBelow pat_num]) else (s1.1, [])
    (some ⟨s2.1, info &&& 7, 4, 0⟩, s1.2 ++ s2.2)
  else (none, [])

/-- `pat_num = used_pattern & 0xFF`. -/
def patNumOf (used_pattern : Nat) : Nat := used_pattern &&& 0xFF

/-- `pat_transpose = (used_pattern >> 8) & 0xFF`, then
`if pat_transpose >= 0x80: pat_transpose -= 256`. -/
def patTransposeOf (used_pattern : Nat) : Int :=
  let pt0 := (used_pattern >>> 8) &&& 0xFF
  if 0x80 ≤ pt0 then (pt0 : Int) - 256 else (pt0 : Int)

/-- `pattern = self.contents[offset:offset+64]` with
`offset = pattern_offset + pat_num*64`. -/
def patBlock (contents : List Nat) (patternOffset : Nat) (used_pattern : Nat) : List Nat :=
  (contents.drop (patternOffset + patNumOf used_pattern * 64)).take 64

/-- One iteration of the row loop of `convert_patterns`: run
`rowConvert` and, when it yields a row, store it at index `row`
(`pico8_pattern.set(row, ...)`), always appending its warnings. -/
def patStep (transposeArg : Int) (pat_num : Nat) (pat_transpose : Int) (block : List Nat)
    (acc : List (Option P8Row) × List Warning) (row : Nat) :
    List (Option P8Row) × List Warning :=
  let rw := rowConvert transposeArg pat_num pat_transpose block row
  match rw.1 with
  | some rr => (acc.1.set row (some rr), acc.2 ++ rw.2)
  | none => (acc.1, acc.2 ++ rw.2)

/-- The body of the outer loop of `convert_patterns` for one
used-pattern entry: extract `pat_num = used_pattern & 0xFF` and
`pat_transpose = (used_pattern >> 8) & 0xFF` (sign-extended when
`>= 0x80`), take the 64-byte block at `pattern_offset + pat_num*64`,
and run the 32-row loop, collecting clamp warnings. -/
def convertPattern (contents : List Nat) (patternOffset : Nat)
    (speedArg transposeArg : Int) (used_pattern : Nat) :
    PICO8Pattern × List Warning :=
  let pat_num := patNumOf used_pattern
  let pat_transpose := patTransposeOf used_pattern
  let block := patBlock contents patternOffset used_pattern
  let res := (List.range 32).foldl (patStep transposeArg pat_num pat_transpose block)
    (List.replicate 32 none, [])
  (⟨res.1, speedArg⟩, res.2)

/-- `FutureComposerModule.convert_patterns`: one `PICO8Pattern` per
used-pattern entry, in set order, collecting all clamp warnings. -/
def convert_patterns (m : FCModule) : List PICO8Pattern × List Warning :=
  m.used_patterns.foldl
    (fun acc k =>
      (acc.1 ++ [(convertPattern m.contents m.pattern_offset m.args.speed m.args.transpose k).1],
       acc.2 ++ (convertPattern m.contents m.pattern_offset m.args.speed m.args.transpose k).2))
    ([], [])

/-- One iteration of the inner loop of `convert_sequences`: a voice
whose `hash & 0xFF` is positive sets channel `voice.num` to
`used_patterns.index(hash)` (`pico8_sequence.set(voice.num, ...)`);
otherwise the channel is left untouched. -/
def seqStep (used : List Nat) (ps : PICO8Sequence) (v : Voice) : PICO8Sequence :=
  if 0 < v.hash &&& 0xFF then ⟨ps.channels.set v.num (some (used.indexOf v.hash))⟩ else ps

/-- The inner loop of `convert_sequences` over one sequence's voices,
starting from a fresh all-disabled `PICO8Sequence`. -/
def convertSeqVoices (used : List Nat) (voices : List Voice) : PICO8Sequence :=
  voices.foldl (seqStep used) ⟨List.replicate 4 none⟩

/-- `FutureComposerModule.convert_sequences`. -/
def convert_sequences (m : FCModule) : List PICO8Sequence :=
  m.sequences.map (fun s => convertSeqVoices m.used_patterns s.voices)

/-- The voice hashes of a sequence list, flattened in sequence order
then channel order — the exact iteration order of the first pass. -/
def voiceKeys (seqs : List Sequence) : List Nat :=
  (seqs.map (fun s => s.voices.map Voice.hash)).flatten

/-- A byte buffer: every element is below 256. -/
def ByteList (l : List Nat) : Prop := ∀ b ∈ l, b < 256

/-- The three fields of a voice record are byte values. -/
def VoiceBytes (v : Voice) : Prop :=
  v.pattern < 256 ∧ v.transpose < 256 ∧ v.sound_transpose < 256

/-- Modelled from the spec: "The UsedPatternSet index of a given dedup
key equals its first-seen position across sequence/channel/voice
iteration order" — keep each key at its first occurrence and drop all
later duplicates. -/
def specFirstSeen : List Nat → List Nat
  | [] => []
  | k :: ks => k :: specFirstSeen (ks.filter (fun x => decide (x ≠ k)))
termination_by l => l.length
decreasing_by
  simp only [List.length_cons]
  exact Nat.lt_succ_of_le (List.length_filter_le _ _)

/-- Python-side window test of the sequence-decoding loop:
`i >= args.start and (i <= args.end or args.end == -1)`. -/
def seqWindow (astart aend : Int) (i : Nat) : Bool :=
  decide (astart ≤ (i : Int) ∧ ((i : Int) ≤ aend ∨ aend = -1))

/-- The channel value `convert_sequences` assigns for one voice: a
pattern index for `hash & 0xFF > 0`, otherwise "channel disabled". -/
def chanOf (used : List Nat) (v : Voice) : Option Nat :=
  if 0 < v.hash &&& 0xFF then some (used.indexOf v.hash) else none

/-!
## Demonstration inputs for the witnesses
-/

/-- Default command-line arguments: `start 0`, `end -1`, `speed 10`,
`transpose 0`. -/
def demoArgs : Args := ⟨0, -1, 10, 0⟩

/-- A small well-formed SMOD buffer: header (sequence table size 13,
pattern offset 113, pattern data size 192), 10 empty sample records,
one sequence record with voices `(1,0,0) (1,0,0) (0,0,0) (2,0,0)` and
speed 3, then three 64-byte pattern blocks. -/
def goodBuf : List Nat :=
  [83, 77, 79, 68, 0, 0, 0, 13, 0, 0, 0, 113, 0, 0, 0, 192]
    ++ List.replicate 24 0
    ++ List.replicate 60 0
    ++ [1, 0, 0, 1, 0, 0, 0, 0, 0, 2, 0, 0, 3]
    ++ List.replicate 64 0
    ++ (36 :: 5 :: List.replicate 62 0)
    ++ (49 :: 2 :: List.replicate 62 0)

/-- A placeholder module (never reached by the demonstrations). -/
def demoFallback : FCModule :=
  { args := demoArgs, contents := [], magic := [], sequence_data_size := 0,
    pattern_offset := 0, pattern_data_size := 0, freqmod_offset := 0,
    freqmod_data_size := 0, volume_offset := 0, volume_data_size := 0,
    sample_offset := 0, wavetable_offset := none, sample_data_size := none,
    sequence_offset := 0, samples := [], sequences := [], used_patterns := [],
    overflow_warning := false }

/-- The module decoded from `goodBuf`. -/
def demoM : FCModule :=
  match decodeModule demoArgs goodBuf with
  | .ok m => m
  | .error _ => demoFallback

/-- The sequence-record bytes of `bigBuf`: 16 records using pattern 1
with transposes `4i .. 4i+3`, then one record using transpose 64 in all
four voices — 65 distinct dedup keys in total. -/
def bigSeqBytes : List Nat :=
  ((List.range 16).map
    (fun i => [1, 4 * i, 0, 1, 4 * i + 1, 0, 1, 4 * i + 2, 0, 1, 4 * i + 3, 0, 0])).flatten
    ++ [1, 64, 0, 1, 64, 0, 1, 64, 0, 1, 64, 0, 0]

/-- An SMOD buffer with 17 sequence records yielding 65 distinct dedup
keys (sequence table size 221, pattern offset 321, pattern data for
patterns 0 and 1). -/
def bigBuf : List Nat :=
  [83, 77, 79, 68, 0, 0, 0, 221, 0, 0, 1, 65, 0, 0, 0, 128]
    ++ List.replicate 24 0
    ++ List.replicate 60 0
    ++ bigSeqBytes
    ++ List.replicate 128 0

/-- The module decoded from `bigBuf`. -/
def bigM : FCModule :=
  match decodeModule demoArgs bigBuf with
  | .ok m => m
  | .error _ => demoFallback

/-- A single decoded sequence of `demoM`: voices `(1,0,0) (1,0,0)
(0,0,0) (2,0,0)` (channel numbers 0..3) at speed 3. -/
def demoSeq : Sequence :=
  ⟨[⟨0, 1, 0, 0⟩, ⟨1, 1, 0, 0⟩, ⟨2, 0, 0, 0⟩, ⟨3, 2, 0, 0⟩], 3⟩

/-- A bare 64-byte pattern block: note 36 with info byte 5 in row 0. -/
def c36 : List Nat := 36 :: 5 :: List.replicate 62 0

/-- Voices shared by the two speed-variant demonstration modules. -/
def spVoices : List Voice :=
  [⟨0, 1, 0, 0⟩, ⟨1, 2, 0, 0⟩, ⟨2, 0, 0, 0⟩, ⟨3, 1, 0, 0⟩]

/-- A module whose single sequence has speed 3. -/
def spModA : FCModule :=
  { args := demoArgs, contents := List.replicate 192 0, magic := smodMagic,
    sequence_data_size := 13, pattern_offset := 0, pattern_data_size := 192,
    freqmod_offset := 0, freqmod_data_size := 0, volume_offset := 0,
    volume_data_size := 0, sample_offset := 0, wavetable_offset := none,
    sample_data_size := some 0, sequence_offset := 100, samples := [],
    sequences := [⟨spVoices, 3⟩],
    used_patterns := buildUsedPatterns [⟨spVoices, 3⟩],
    overflow_warning := decide (64 < (buildUsedPatterns [⟨spVoices, 3⟩]).length) }

/-- The same module as `spModA` except that the sequence speed byte is
7 instead of 3. -/
def spModB : FCModule :=
  { args := demoArgs, contents := List.replicate 192 0, magic := smodMagic,
    sequence_data_size := 13, pattern_offset := 0, pattern_data_size := 192,
    freqmod_offset := 0, freqmod_data_size := 0, volume_offset := 0,
    volume_data_size := 0, sample_offset := 0, wavetable_offset := none,
    sample_data_size := some 0, sequence_offset := 100, samples := [],
    sequences := [⟨spVoices, 7⟩],
    used_patterns := buildUsedPatterns [⟨spVoices, 7⟩],
    overflow_warning := decide (64 < (buildUsedPatterns [⟨spVoices, 7⟩]).length) }

instance (l : List Nat) : Decidable (ByteList l) :=
  decidable_of_iff (∀ b ∈ l, b < 256) Iff.rfl

/-!
## Formatting lemmas
-/

theorem natToHex_length_of_lt {n : Nat} (h : n < 16) : (natToHex n).length = 1 := by
  rw [natToHex]
  simp [h]

theorem natToHex_length_pos (n : Nat) : 0 < (natToHex n).length := by
  rw [natToHex]
  split <;> simp

theorem natToHex_length_le_two {n : Nat} (h : n < 256) : (natToHex n).length ≤ 2 := by
  by_cases h16 : n < 16
  · rw [natToHex_length_of_lt h16]
    omega
  · rw [natToHex]
    simp only [h16, dite_false, List.length_append, List.length_cons, List.length_nil]
    have hd : n / 16 < 16 := by omega
    rw [natToHex_length_of_lt hd]

theorem fmtHex02Nat_length {n : Nat} (h : n < 256) : (fmtHex02Nat n).length = 2 := by
  have h1 := natToHex_length_pos n
  have h2 := natToHex_length_le_two h
  rw [fmtHex02Nat]
  simp only [List.length_append, List.length_replicate]
  omega

theorem fmtHex02Int_length {n : Int} (h0 : 0 ≤ n) (h : n < 256) :
    (fmtHex02Int n).length = 2 := by
  rw [fmtHex02Int, if_neg (by omega)]
  exact fmtHex02Nat_length (by omega)

theorem natToDec_length_of_lt {n : Nat} (h : n < 10) : (natToDec n).length = 1 := by
  rw [natToDec]
  simp [h]

/-- A populated row whose note is in `[0, 255]` and whose instrument,
volume and effect are single decimal digits renders as exactly 5
characters. -/
theorem P8Row_format_length {r : P8Row} (hn0 : 0 ≤ r.note) (hn : r.note < 256)
    (hi : r.instrument < 10) (hv : r.volume < 10) (he : r.effect < 10) :
    r.format.length = 5 := by
  rw [P8Row.format]
  simp [List.length_append, fmtHex02Int_length hn0 hn,
    natToDec_length_of_lt hi, natToDec_length_of_lt hv, natToDec_length_of_lt he]

/-!
## Fold characterizations of the formatters and of `convert_patterns`
-/

theorem foldl_append_render {α : Type} (g : α → List Char) :
    ∀ (l : List α) (init : List Char),
      l.foldl (fun acc r => acc ++ g r) init = init ++ (l.map g).flatten
  | [], _ => by simp
  | x :: xs, init => by
    simp only [List.foldl_cons, List.map_cons, List.flatten_cons]
    rw [foldl_append_render g xs (init ++ g x)]
    simp [List.append_assoc]

/-- `PICO8Pattern.format` is the fixed prefix followed by the
concatenation of the 32 row codes. -/
theorem PICO8Pattern.format_concat (p : PICO8Pattern) :
    p.format = "01".toList ++ fmtHex02Int p.speed ++ "0000".toList
      ++ (p.rows.map renderRowOpt).flatten := by
  rw [PICO8Pattern.format, foldl_append_render]

/-- `PICO8Sequence.format` is `"00 "` followed by the 4 channel codes. -/
theorem PICO8Sequence.format_parts (s : PICO8Sequence) :
    s.format = "00 ".toList
      ++ channelCode (s.channels.getD 0 none) 0
      ++ channelCode (s.channels.getD 1 none) 1
      ++ channelCode (s.channels.getD 2 none) 2
      ++ channelCode (s.channels.getD 3 none) 3 := by
  rw [PICO8Sequence.format]
  have h4 : List.range 4 = [0, 1, 2, 3] := by decide
  rw [h4]
  simp [List.foldl_cons, List.append_assoc]

theorem foldl_pairAppend {γ α β : Type} (f : γ → α) (g : γ → List β) :
    ∀ (l : List γ) (A : List α) (B : List β),
      l.foldl (fun acc k => (acc.1 ++ [f k], acc.2 ++ g k)) (A, B)
        = (A ++ l.map f, B ++ (l.map g).flatten)
  | [], A, B => by simp
  | x :: xs, A, B => by
    simp only [List.foldl_cons, List.map_cons, List.flatten_cons]
    rw [foldl_pairAppend f g xs (A ++ [f x]) (B ++ g x)]
    simp [List.append_assoc]

/-- `convert_patterns` maps `convertPattern` over the used-pattern list
in set order and concatenates the warnings. -/
theorem convert_patterns_eq (m : FCModule) :
    convert_patterns m
      = (m.used_patterns.map
           (fun k => (convertPattern m.contents m.pattern_offset m.args.speed m.args.transpose k).1),
         (m.used_patterns.map
           (fun k => (convertPattern m.contents m.pattern_offset m.args.speed m.args.transpose k).2)).flatten) := by
  rw [convert_patterns]
  rw [foldl_pairAppend
    (fun k => (convertPattern m.contents m.pattern_offset m.args.speed m.args.transpose k).1)
    (fun k => (convertPattern m.contents m.pattern_offset m.args.speed m.args.transpose k).2)]
  simp

/-!
## The used-pattern set: membership, no duplicates, first-seen order
-/

theorem mem_insertUsed {acc : List Nat} {k x : Nat} :
    x ∈ insertUsed acc k ↔ x ∈ acc ∨ x = k := by
  unfold insertUsed
  split
  · rename_i h
    constructor
    · exact Or.inl
    · rintro (hx | rfl)
      · exact hx
      · exact h
  · simp

theorem mem_foldl_insertUsed : ∀ (l acc : List Nat) (x : Nat),
    x ∈ l.foldl insertUsed acc ↔ x ∈ acc ∨ x ∈ l
  | [], acc, x => by simp
  | k :: ks, acc, x => by
    simp only [List.foldl_cons, List.mem_cons]
    rw [mem_foldl_insertUsed ks (insertUsed acc k) x, mem_insertUsed]
    tauto

theorem nodup_insertUsed {acc : List Nat} (h : acc.Nodup) (k : Nat) :
    (insertUsed acc k).Nodup := by
  unfold insertUsed
  split
  · exact h
  · rename_i hk
    simp [List.nodup_append, h, hk]

theorem nodup_foldl_insertUsed : ∀ (l acc : List Nat), acc.Nodup → (l.foldl insertUsed acc).Nodup
  | [], _, h => h
  | k :: ks, acc, h => by
    simp only [List.foldl_cons]
    exact nodup_foldl_insertUsed ks _ (nodup_insertUsed h k)

theorem specFirstSeen_cons (k : Nat) (ks : List Nat) :
    specFirstSeen (k :: ks) = k :: specFirstSeen (ks.filter (fun x => decide (x ≠ k))) := by
  rw [specFirstSeen.eq_def]

theorem foldl_insertUsed_eq : ∀ (l acc : List Nat),
    l.foldl insertUsed acc = acc ++ specFirstSeen (l.filter (fun x => decide (x ∉ acc)))
  | [], acc => by simp [specFirstSeen]
  | k :: ks, acc => by
    simp only [List.foldl_cons, List.filter_cons]
    by_cases hk : k ∈ acc
    · rw [insertUsed, if_pos hk]
      rw [if_neg (by simp [hk])]
      exact foldl_insertUsed_eq ks acc
    · rw [insertUsed, if_neg hk]
      rw [foldl_insertUsed_eq ks (acc ++ [k])]
      rw [if_pos (by simp [hk])]
      rw [specFirstSeen_cons, List.filter_filter]
      have hpred : ∀ x ∈ ks,
          (decide (x ∉ acc ++ [k])) = (decide (x ∉ acc) && decide (x ≠ k)) := by
        intro x _
        simp [List.mem_append, not_or, Bool.and_comm]
      rw [List.filter_congr hpred]
      simp only [List.append_assoc, List.singleton_append, List.cons_append, List.nil_append]
      have hcomm : List.filter (fun x => decide (x ∉ acc) && decide (x ≠ k)) ks
          = List.filter (fun a => decide (a ≠ k) && decide (a ∉ acc)) ks :=
        List.filter_congr (fun x _ => by rw [Bool.and_comm])
      rw [hcomm]

theorem buildUsedPatterns_eq_foldl (seqs : List Sequence) :
    buildUsedPatterns seqs = (voiceKeys seqs).foldl insertUsed [] := by
  simp [buildUsedPatterns, voiceKeys, List.foldl_flatten, List.foldl_map]

theorem mem_buildUsedPatterns (seqs : List Sequence) (x : Nat) :
    x ∈ buildUsedPatterns seqs ↔ x ∈ voiceKeys seqs := by
  rw [buildUsedPatterns_eq_foldl, mem_foldl_insertUsed]
  simp

theorem nodup_buildUsedPatterns (seqs : List Sequence) :
    (buildUsedPatterns seqs).Nodup := by
  rw [buildUsedPatterns_eq_foldl]
  exact nodup_foldl_insertUsed _ _ List.nodup_nil

theorem buildUsedPatterns_eq_specFirstSeen (seqs : List Sequence) :
    buildUsedPatterns seqs = specFirstSeen (voiceKeys seqs) := by
  rw [buildUsedPatterns_eq_foldl, foldl_insertUsed_eq]
  simp

theorem mem_voiceKeys (seqs : List Sequence) (x : Nat) :
    x ∈ voiceKeys seqs ↔ ∃ s ∈ seqs, ∃ v ∈ s.voices, v.hash = x := by
  simp [voiceKeys, List.mem_flatten, List.mem_map]

/-!
## The row loop of `convert_patterns`
-/

theorem patStep_eq (t : Int) (p : Nat) (pt : Int) (block : List Nat)
    (acc : List (Option P8Row) × List Warning) (row : Nat) :
    patStep t p pt block acc row
      = ((match (rowConvert t p pt block row).1 with
          | some rr => acc.1.set row (some rr)
          | none => acc.1),
         acc.2 ++ (rowConvert t p pt block row).2) := by
  unfold patStep
  cases hr : (rowConvert t p pt block row).1 <;> simp [hr]

theorem foldl_patStep (t : Int) (p : Nat) (pt : Int) (block : List Nat) :
    ∀ (k n : Nat), k ≤ n → ∀ (ws0 : List Warning),
      (List.range k).foldl (patStep t p pt block) (List.replicate n none, ws0)
        = ((List.range k).map (fun r => (rowConvert t p pt block r).1)
             ++ List.replicate (n - k) (none : Option P8Row),
           ws0 ++ ((List.range k).map (fun r => (rowConvert t p pt block r).2)).flatten)
  | 0, n, _, ws0 => by simp
  | k + 1, n, hk, ws0 => by
    have hk' : k ≤ n := Nat.le_of_succ_le hk
    rw [List.range_succ, List.foldl_append]
    rw [foldl_patStep t p pt block k n hk' ws0]
    simp only [List.foldl_cons, List.foldl_nil]
    rw [patStep_eq]
    have hlen : ((List.range k).map (fun r => (rowConvert t p pt block r).1)).length = k := by
      simp
    have hrep : n - k = (n - (k + 1)) + 1 := by omega
    rw [hrep, List.replicate_succ]
    cases hr : (rowConvert t p pt block k).1 with
    | some rr =>
      simp only [hr]
      rw [List.set_append_right _ _ (le_of_eq hlen)]
      simp [hlen, List.range_succ, hr, List.flatten_append, List.append_assoc]
    | none =>
      simp only [hr]
      simp [List.range_succ, hr, List.flatten_append, List.append_assoc]

/-- `convertPattern` in closed form: the rows are the 32 values of
`rowConvert` in row order, the speed is the speed argument, and the
warnings are the concatenation of the per-row warnings. -/
theorem convertPattern_eq (c : List Nat) (po : Nat) (sp t : Int) (key : Nat) :
    convertPattern c po sp t key
      = (⟨(List.range 32).map
            (fun r => (rowConvert t (patNumOf key) (patTransposeOf key) (patBlock c po key) r).1),
          sp⟩,
         ((List.range 32).map
            (fun r => (rowConvert t (patNumOf key) (patTransposeOf key) (patBlock c po key) r).2)).flatten) := by
  simp only [convertPattern]
  rw [foldl_patStep t (patNumOf key) (patTransposeOf key) (patBlock c po key) 32 32
    (Nat.le_refl 32) []]
  simp

theorem convertPattern_speed (c : List Nat) (po : Nat) (sp t : Int) (key : Nat) :
    (convertPattern c po sp t key).1.speed = sp := by
  rw [convertPattern_eq]

theorem convertPattern_rows_length (c : List Nat) (po : Nat) (sp t : Int) (key : Nat) :
    (convertPattern c po sp t key).1.rows.length = 32 := by
  rw [convertPattern_eq]
  simp

theorem convertPattern_rows_getD (c : List Nat) (po : Nat) (sp t : Int) (key : Nat)
    {row : Nat} (h : row < 32) :
    (convertPattern c po sp t key).1.rows.getD row none
      = (rowConvert t (patNumOf key) (patTransposeOf key) (patBlock c po key) row).1 := by
  rw [convertPattern_eq]
  have hlt : row < ((List.range 32).map
      (fun r => (rowConvert t (patNumOf key) (patTransposeOf key) (patBlock c po key) r).1)).length := by
    simp [h]
  rw [List.getD_eq_getElem _ _ hlt]
  simp

/-!
## Dedup-key arithmetic
-/

theorem hash_and_255 {v : Voice} (h : v.pattern < 256) :
    v.hash &&& 0xFF = v.pattern := by
  have h255 : (0xFF : Nat) = 2 ^ 8 - 1 := by norm_num
  rw [Voice.hash, h255, Nat.and_pow_two_sub_one_eq_mod]
  omega

theorem hash_shiftRight_and_255 {v : Voice} (hp : v.pattern < 256) (ht : v.transpose < 256) :
    (v.hash >>> 8) &&& 0xFF = v.transpose := by
  have h255 : (0xFF : Nat) = 2 ^ 8 - 1 := by norm_num
  rw [Voice.hash, Nat.shiftRight_eq_div_pow, h255, Nat.and_pow_two_sub_one_eq_mod]
  omega

theorem hash_and_255_of_pattern_zero {v : Voice} (h : v.pattern = 0) :
    v.hash &&& 0xFF = 0 := by
  have h255 : (0xFF : Nat) = 2 ^ 8 - 1 := by norm_num
  rw [Voice.hash, h, h255, Nat.and_pow_two_sub_one_eq_mod]
  omega

theorem patNumOf_hash {v : Voice} (h : v.pattern < 256) :
    patNumOf v.hash = v.pattern := by
  rw [patNumOf, hash_and_255 h]

theorem patTransposeOf_hash {v : Voice} (hp : v.pattern < 256) (ht : v.transpose < 256) :
    patTransposeOf v.hash
      = (if 0x80 ≤ v.transpose then (v.transpose : Int) - 256 else (v.transpose : Int)) := by
  rw [patTransposeOf]
  rw [hash_shiftRight_and_255 hp ht]

theorem hash_inj {v w : Voice} (hv : VoiceBytes v) (hw : VoiceBytes w)
    (h : v.hash = w.hash) :
    v.pattern = w.pattern ∧ v.transpose = w.transpose ∧ v.sound_transpose = w.sound_transpose := by
  obtain ⟨hv1, hv2, hv3⟩ := hv
  obtain ⟨hw1, hw2, hw3⟩ := hw
  rw [Voice.hash, Voice.hash] at h
  omega

/-!
## Byte-level well-formedness
-/

theorem getD_lt_256 {l : List Nat} (hb : ByteList l) (i : Nat) : l.getD i 0 < 256 := by
  by_cases h : i < l.length
  · rw [List.getD_eq_getElem _ _ h]
    exact hb _ (List.getElem_mem h)
  · rw [List.getD_eq_default _ _ (Nat.le_of_not_lt h)]
    norm_num

theorem ByteList.drop {l : List Nat} (hb : ByteList l) (n : Nat) : ByteList (l.drop n) :=
  fun b hbm => hb b (List.mem_of_mem_drop hbm)

theorem ByteList.take {l : List Nat} (hb : ByteList l) (n : Nat) : ByteList (l.take n) :=
  fun b hbm => hb b (List.mem_of_mem_take hbm)

theorem decodeVoice_bytes {data : List Nat} (hb : ByteList data) (n : Nat) :
    VoiceBytes (decodeVoice n data) :=
  ⟨getD_lt_256 hb 0, getD_lt_256 hb 1, getD_lt_256 hb 2⟩

theorem decodeVoice_num (data : List Nat) (n : Nat) : (decodeVoice n data).num = n := rfl

/-!
## Sequence decoding
-/

theorem decodeSequence_some {data : List Nat} {s : Sequence}
    (h : decodeSequence data = some s) :
    s.voices = [decodeVoice 0 data, decodeVoice 1 (data.drop 3),
                decodeVoice 2 (data.drop 6), decodeVoice 3 (data.drop 9)]
      ∧ s.speed = data.getD 12 0 ∧ 13 ≤ data.length := by
  rw [decodeSequence] at h
  split at h
  · rename_i hl
    injection h with h2
    rw [← h2]
    exact ⟨rfl, rfl, hl⟩
  · cases h

theorem decodeSequencesAux_ok (c : List Nat) (off : Nat) (st en : Int) :
    ∀ (l : List Nat) (acc res : List Sequence),
      decodeSequencesAux c off st en l acc = .ok res →
      ∃ tail, res = acc ++ tail ∧
        (l.filter (seqWindow st en)).map (fun i => decodeSequence (c.drop (off + i * 13)))
          = tail.map some
  | [], acc, res => by
    intro h
    simp only [decodeSequencesAux] at h
    injection h with h2
    exact ⟨[], by simp [h2], by simp⟩
  | i :: is, acc, res => by
    intro h
    simp only [decodeSequencesAux] at h
    by_cases hw : st ≤ (i : Int) ∧ ((i : Int) ≤ en ∨ en = -1)
    · rw [if_pos hw] at h
      cases hd : decodeSequence (c.drop (off + i * 13)) with
      | none =>
        rw [hd] at h
        cases h
      | some s =>
        rw [hd] at h
        obtain ⟨tail, htail, hmap⟩ := decodeSequencesAux_ok c off st en is (acc ++ [s]) res h
        refine ⟨s :: tail, ?_, ?_⟩
        · rw [htail]
          simp
        · rw [List.filter_cons, if_pos (by simp [seqWindow, hw])]
          simp [hmap, hd]
    · rw [if_neg hw] at h
      obtain ⟨tail, htail, hmap⟩ := decodeSequencesAux_ok c off st en is acc res h
      refine ⟨tail, htail, ?_⟩
      rw [List.filter_cons, if_neg (by simp [seqWindow, hw])]
      exact hmap

/-!
## Inversion of `decodeModule`
-/

theorem decodeModule_ok {a : Args} {c : List Nat} {m : FCModule}
    (h : decodeModule a c = .ok m) :
    m.args = a ∧ m.contents = c ∧
    m.used_patterns = buildUsedPatterns m.sequences ∧
    m.overflow_warning = decide (64 < m.used_patterns.length) ∧
    m.sequence_data_size = readBE c 4 4 ∧
    m.pattern_offset = readBE c 8 4 ∧
    m.sequence_offset = (if c.take 4 = fc14Magic then 180 else 100) ∧
    decodeSequencesAux c m.sequence_offset a.start a.endArg
      (List.range (m.sequence_data_size / 13)) [] = .ok m.sequences := by
  simp only [decodeModule] at h
  split at h
  · cases h
  · split at h
    · cases h
    · split at h
      · cases h
      · rename_i seqs hseqs
        injection h with h2
        subst h2
        exact ⟨rfl, rfl, rfl, rfl, rfl, rfl, rfl, hseqs⟩

/-!
## The row conversion in closed form
-/

theorem rowConvert_of_pos (t : Int) (p : Nat) (pt : Int) (block : List Nat) (row : Nat)
    (h : 0 < block.getD (row * 2) 0) :
    rowConvert t p pt block row
      = (some ⟨(if 63 < ((block.getD (row * 2) 0 : Int) + 24 + pt + t) then 63
                else if ((block.getD (row * 2) 0 : Int) + 24 + pt + t) < 0 then 0
                else ((block.getD (row * 2) 0 : Int) + 24 + pt + t)),
               block.getD (row * 2 + 1) 0 &&& 7, 4, 0⟩,
         if 63 < ((block.getD (row * 2) 0 : Int) + 24 + pt + t) then [Warning.noteAbove p]
         else if ((block.getD (row * 2) 0 : Int) + 24 + pt + t) < 0 then [Warning.noteBelow p]
         else []) := by
  unfold rowConvert
  rw [if_pos h]
  by_cases hhi : 63 < ((block.getD (row * 2) 0 : Int) + 24 + pt + t)
  · simp only [hhi, if_true]
    norm_num
  · simp only [hhi, if_false]
    by_cases hlo : ((block.getD (row * 2) 0 : Int) + 24 + pt + t) < 0
    · simp only [hlo, if_true]
      norm_num
    · simp only [hlo, if_false]
      norm_num

theorem rowConvert_of_zero (t : Int) (p : Nat) (pt : Int) (block : List Nat) (row : Nat)
    (h : block.getD (row * 2) 0 = 0) :
    rowConvert t p pt block row = (none, []) := by
  unfold rowConvert
  rw [if_neg (by omega)]

/-!
## The sequence conversion
-/

theorem convertSeqVoices_four (used : List Nat) (v0 v1 v2 v3 : Voice)
    (h0 : v0.num = 0) (h1 : v1.num = 1) (h2 : v2.num = 2) (h3 : v3.num = 3) :
    (convertSeqVoices used [v0, v1, v2, v3]).channels
      = [chanOf used v0, chanOf used v1, chanOf used v2, chanOf used v3] := by
  simp only [convertSeqVoices, List.foldl_cons, List.foldl_nil, seqStep, h0, h1, h2, h3]
  by_cases c0 : 0 < v0.hash &&& 0xFF <;> by_cases c1 : 0 < v1.hash &&& 0xFF <;>
    by_cases c2 : 0 < v2.hash &&& 0xFF <;> by_cases c3 : 0 < v3.hash &&& 0xFF <;>
      simp [chanOf, c0, c1, c2, c3, List.replicate_succ]

theorem mem_channels_foldl_seqStep (used : List Nat) :
    ∀ (voices : List Voice) (ps : PICO8Sequence) (x : Nat),
      some x ∈ (voices.foldl (seqStep used) ps).channels →
      some x ∈ ps.channels ∨ ∃ v ∈ voices, 0 < v.hash &&& 0xFF ∧ x = used.indexOf v.hash
  | [], _, _ => fun h => Or.inl h
  | v :: vs, ps, x => by
    intro h
    simp only [List.foldl_cons] at h
    rcases mem_channels_foldl_seqStep used vs (seqStep used ps v) x h with hin | ⟨w, hw, hpos, hx⟩
    · rw [seqStep] at hin
      split at hin
      · rename_i hc
        rcases List.mem_or_eq_of_mem_set hin with hmem | heq
        · exact Or.inl hmem
        · right
          refine ⟨v, by simp, hc, ?_⟩
          injection heq
      · exact Or.inl hin
    · right
      exact ⟨w, by simp [hw], hpos, hx⟩

theorem convert_sequences_eq_map (m : FCModule) :
    convert_sequences m
      = (m.sequences.map Sequence.voices).map (convertSeqVoices m.used_patterns) := by
  rw [convert_sequences, List.map_map]
  rfl

theorem voiceKeys_eq_map (seqs : List Sequence) :
    voiceKeys seqs = ((seqs.map Sequence.voices).map (List.map Voice.hash)).flatten := by
  rw [voiceKeys, List.map_map]
  rfl

/-!
## `indexOf` on a duplicate-free list
-/

theorem indexOf_inj_of_mem {l : List Nat} {a b : Nat}
    (ha : a ∈ l) (hb : b ∈ l) (h : l.indexOf a = l.indexOf b) : a = b := by
  have ha' : l.indexOf a < l.length := List.indexOf_lt_length.mpr ha
  have hb' : l.indexOf b < l.length := List.indexOf_lt_length.mpr hb
  have e1 : l.get ⟨l.indexOf a, ha'⟩ = a := by simp [List.getElem_indexOf ha']
  have e2 : l.get ⟨l.indexOf b, hb'⟩ = b := by simp [List.getElem_indexOf hb']
  rw [← e1, ← e2]
  congr 1
  exact Fin.ext h

/-!
## Decoded sequences: origin and shape
-/

theorem decodeModule_seq_mem {a : Args} {c : List Nat} {m : FCModule}
    (hm : decodeModule a c = .ok m) {s : Sequence} (hs : s ∈ m.sequences) :
    ∃ j : Nat, decodeSequence (c.drop (m.sequence_offset + j * 13)) = some s := by
  obtain ⟨-, -, -, -, -, -, -, haux⟩ := decodeModule_ok hm
  obtain ⟨tail, htail, hmap⟩ := decodeSequencesAux_ok _ _ _ _ _ _ _ haux
  rw [List.nil_append] at htail
  have hmem : some s ∈ tail.map some := by
    rw [← htail]
    exact List.mem_map_of_mem some hs
  rw [← hmap] at hmem
  obtain ⟨j, _, hjs⟩ := List.mem_map.mp hmem
  exact ⟨j, hjs⟩

theorem seq_shape_of_decode {a : Args} {c : List Nat} {m : FCModule}
    (hm : decodeModule a c = .ok m) (hb : ByteList c)
    {s : Sequence} (hs : s ∈ m.sequences) :
    ∃ v0 v1 v2 v3 : Voice, s.voices = [v0, v1, v2, v3]
      ∧ v0.num = 0 ∧ v1.num = 1 ∧ v2.num = 2 ∧ v3.num = 3
      ∧ VoiceBytes v0 ∧ VoiceBytes v1 ∧ VoiceBytes v2 ∧ VoiceBytes v3 := by
  obtain ⟨j, hj⟩ := decodeModule_seq_mem hm hs
  obtain ⟨hvs, -, -⟩ := decodeSequence_some hj
  set d := c.drop (m.sequence_offset + j * 13) with hd
  have hbd : ByteList d := hb.drop _
  refine ⟨decodeVoice 0 d, decodeVoice 1 (d.drop 3), decodeVoice 2 (d.drop 6),
    decodeVoice 3 (d.drop 9), hvs, rfl, rfl, rfl, rfl, ?_, ?_, ?_, ?_⟩
  · exact decodeVoice_bytes hbd 0
  · exact decodeVoice_bytes (hbd.drop 3) 1
  · exact decodeVoice_bytes (hbd.drop 6) 2
  · exact decodeVoice_bytes (hbd.drop 9) 3

theorem decode_voice_bytes_of_mem {a : Args} {c : List Nat} {m : FCModule}
    (hm : decodeModule a c = .ok m) (hb : ByteList c)
    {s : Sequence} (hs : s ∈ m.sequences) {v : Voice} (hv : v ∈ s.voices) :
    VoiceBytes v := by
  obtain ⟨v0, v1, v2, v3, hvs, -, -, -, -, b0, b1, b2, b3⟩ := seq_shape_of_decode hm hb hs
  rw [hvs] at hv
  simp only [List.mem_cons, List.not_mem_nil, or_false] at hv
  rcases hv with rfl | rfl | rfl | rfl
  · exact b0
  · exact b1
  · exact b2
  · exact b3

/-!
## Rows produced by the row loop
-/

theorem rowConvert_fst_some {t : Int} {p : Nat} {pt : Int} {block : List Nat} {row : Nat}
    {rr : P8Row} (h : (rowConvert t p pt block row).1 = some rr) :
    0 ≤ rr.note ∧ rr.note ≤ 63
      ∧ rr.instrument = block.getD (row * 2 + 1) 0 &&& 7
      ∧ rr.instrument < 8 ∧ rr.volume = 4 ∧ rr.effect = 0 := by
  by_cases hN : 0 < block.getD (row * 2) 0
  · rw [rowConvert_of_pos t p pt block row hN] at h
    simp only [Option.some.injEq] at h
    subst h
    dsimp only
    refine ⟨?_, ?_, rfl, ?_, rfl, rfl⟩
    · split_ifs <;> omega
    · split_ifs <;> omega
    · have := Nat.and_le_right (n := block.getD (row * 2 + 1) 0) (m := 7)
      omega
  · have h0 : block.getD (row * 2) 0 = 0 := by omega
    rw [rowConvert_of_zero t p pt block row h0] at h
    cases h

/-!
## The claims
-/

/-- C1: for every pair of voices across the in-scope sequences whose
(pattern-number, note-transpose, instrument-transpose) triples are
equal, the translator assigns both the same converted pattern index
into the used-pattern set, and that index refers to the identical
converted pattern (the entry `convert_patterns` produces for their
common dedup key). -/
theorem C1_equal_triples_same_pattern {a : Args} {c : List Nat} {m : FCModule}
    (hm : decodeModule a c = .ok m)
    {s1 s2 : Sequence} (hs1 : s1 ∈ m.sequences) (_hs2 : s2 ∈ m.sequences)
    {v1 v2 : Voice} (hv1 : v1 ∈ s1.voices) (_hv2 : v2 ∈ s2.voices)
    (hp : v1.pattern = v2.pattern) (ht : v1.transpose = v2.transpose)
    (hst : v1.sound_transpose = v2.sound_transpose) :
    ∃ idx, m.used_patterns.indexOf v1.hash = idx
      ∧ m.used_patterns.indexOf v2.hash = idx
      ∧ idx < m.used_patterns.length
      ∧ (convert_patterns m).1[idx]?
          = some (convertPattern m.contents m.pattern_offset m.args.speed
                    m.args.transpose v1.hash).1 := by
  obtain ⟨-, -, hused, -, -, -, -, -⟩ := decodeModule_ok hm
  have hh : v1.hash = v2.hash := by
    rw [Voice.hash, Voice.hash, hp, ht, hst]
  have hmem : v1.hash ∈ m.used_patterns := by
    rw [hused, mem_buildUsedPatterns, mem_voiceKeys]
    exact ⟨s1, hs1, v1, hv1, rfl⟩
  have hlt : m.used_patterns.indexOf v1.hash < m.used_patterns.length :=
    List.indexOf_lt_length.mpr hmem
  refine ⟨m.used_patterns.indexOf v1.hash, rfl, by rw [hh], hlt, ?_⟩
  rw [convert_patterns_eq]
  dsimp only
  rw [List.getElem?_map, List.getElem?_eq_getElem hlt, List.getElem_indexOf hlt]
  rfl

/-- C2: for every non-empty row (source note byte `N > 0`), the
converted note is `N + 24 +` (the key's second byte reinterpreted as
signed) `+` the global transpose, clamped to `[0, 63]`; clamping at
either bound records a warning naming the source pattern number, and
conversion is total (no abort). -/
theorem C2_note_conversion (contents : List Nat) (patternOffset : Nat)
    (speedArg transposeArg : Int) (key : Nat) {row : Nat} (hrow : row < 32)
    (hN : 0 < (patBlock contents patternOffset key).getD (row * 2) 0) :
    ∃ raw : Int,
      raw = ((patBlock contents patternOffset key).getD (row * 2) 0 : Int) + 24
              + patTransposeOf key + transposeArg
      ∧ (convertPattern contents patternOffset speedArg transposeArg key).1.rows.getD row none
          = some ⟨(if 63 < raw then 63 else if raw < 0 then 0 else raw),
                  (patBlock contents patternOffset key).getD (row * 2 + 1) 0 &&& 7, 4, 0⟩
      ∧ (63 < raw → Warning.noteAbove (patNumOf key)
            ∈ (convertPattern contents patternOffset speedArg transposeArg key).2)
      ∧ (raw < 0 → Warning.noteBelow (patNumOf key)
            ∈ (convertPattern contents patternOffset speedArg transposeArg key).2)
      ∧ 0 ≤ (if 63 < raw then 63 else if raw < 0 then 0 else raw)
      ∧ (if 63 < raw then 63 else if raw < 0 then 0 else raw) ≤ 63 := by
  refine ⟨_, rfl, ?_, ?_, ?_, ?_, ?_⟩
  · rw [convertPattern_rows_getD _ _ _ _ _ hrow,
      rowConvert_of_pos _ _ _ _ _ hN]
  · intro h63
    rw [convertPattern_eq]
    dsimp only
    apply List.mem_flatten.mpr
    refine ⟨(rowConvert transposeArg (patNumOf key) (patTransposeOf key)
        (patBlock contents patternOffset key) row).2,
      List.mem_map_of_mem _ (List.mem_range.mpr hrow), ?_⟩
    rw [rowConvert_of_pos _ _ _ _ _ hN]
    dsimp only
    rw [if_pos h63]
    exact List.mem_singleton_self _
  · intro hlt0
    rw [convertPattern_eq]
    dsimp only
    apply List.mem_flatten.mpr
    refine ⟨(rowConvert transposeArg (patNumOf key) (patTransposeOf key)
        (patBlock contents patternOffset key) row).2,
      List.mem_map_of_mem _ (List.mem_range.mpr hrow), ?_⟩
    rw [rowConvert_of_pos _ _ _ _ _ hN]
    dsimp only
    rw [if_neg (by omega), if_pos hlt0]
    exact List.mem_singleton_self _
  · split_ifs <;> omega
  · split_ifs <;> omega

/-- C3 (code bug): decoding a buffer whose first 4 bytes are neither
`SMOD` nor `FC14` is fatal, but the source's error branch
`sys.exit("Unknown format: %s" % magic)` evaluates the unbound name
`magic` (the attribute is `self.magic`), so Python raises
`NameError: name 'magic' is not defined` — the process terminates with
a non-zero status and no output lines, yet the message does not name
the unrecognized tag. -/
theorem C3_unknown_magic_is_name_error :
    decodeModule ⟨0, -1, 10, 0⟩ [88, 88, 88, 88] = .error (.nameError "magic") := by
  rfl

/-- C4: the used-pattern set lists each dedup key at its first-seen
position in sequence-order/channel-order voice iteration: it equals the
first-seen dedup of the flattened key list, is duplicate-free, and
contains exactly the keys of the in-scope voices. -/
theorem C4_first_seen_order {a : Args} {c : List Nat} {m : FCModule}
    (hm : decodeModule a c = .ok m) :
    m.used_patterns = specFirstSeen (voiceKeys m.sequences)
      ∧ m.used_patterns.Nodup
      ∧ (∀ k, k ∈ m.used_patterns ↔ k ∈ voiceKeys m.sequences) := by
  obtain ⟨-, -, hused, -, -, -, -, -⟩ := decodeModule_ok hm
  refine ⟨?_, ?_, ?_⟩
  · rw [hused, buildUsedPatterns_eq_specFirstSeen]
  · rw [hused]
    exact nodup_buildUsedPatterns _
  · intro k
    rw [hused, mem_buildUsedPatterns]

/-- C5: for every in-scope sequence and channel `ch < 4`, the converted
sequence's channel is disabled (rendering as the sentinel
`0x40 + ch + 1`) exactly when the voice's pattern-number is 0, and
otherwise holds the used-pattern index of the voice's dedup key
(rendering as its 2-hex-digit value). -/
theorem C5_channel_codes {a : Args} {c : List Nat} {m : FCModule}
    (hm : decodeModule a c = .ok m) (hb : ByteList c)
    {i : Nat} (hi : i < m.sequences.length) {ch : Nat} (hch : ch < 4) :
    ∃ cs, (convert_sequences m)[i]? = some cs
      ∧ cs.channels.getD ch none
          = (if ((m.sequences.get ⟨i, hi⟩).voices.getD ch ⟨0, 0, 0, 0⟩).pattern = 0 then none
             else some (m.used_patterns.indexOf
                    ((m.sequences.get ⟨i, hi⟩).voices.getD ch ⟨0, 0, 0, 0⟩).hash))
      ∧ cs.format = "00 ".toList
          ++ channelCode (cs.channels.getD 0 none) 0
          ++ channelCode (cs.channels.getD 1 none) 1
          ++ channelCode (cs.channels.getD 2 none) 2
          ++ channelCode (cs.channels.getD 3 none) 3
      ∧ (((m.sequences.get ⟨i, hi⟩).voices.getD ch ⟨0, 0, 0, 0⟩).pattern = 0 →
          channelCode (cs.channels.getD ch none) ch = fmtHex02Nat (0x40 + ch + 1))
      ∧ (((m.sequences.get ⟨i, hi⟩).voices.getD ch ⟨0, 0, 0, 0⟩).pattern ≠ 0 →
          channelCode (cs.channels.getD ch none) ch
            = fmtHex02Nat (m.used_patterns.indexOf
                ((m.sequences.get ⟨i, hi⟩).voices.getD ch ⟨0, 0, 0, 0⟩).hash)) := by
  have hsmem : m.sequences.get ⟨i, hi⟩ ∈ m.sequences := List.get_mem _ _ _
  obtain ⟨v0, v1, v2, v3, hvs, h0, h1, h2, h3, b0, b1, b2, b3⟩ :=
    seq_shape_of_decode hm hb hsmem
  refine ⟨convertSeqVoices m.used_patterns (m.sequences.get ⟨i, hi⟩).voices, ?_, ?_, ?_, ?_, ?_⟩
  · rw [convert_sequences, List.getElem?_map, List.getElem?_eq_getElem hi]
    simp [List.get_eq_getElem]
  · rw [hvs, convertSeqVoices_four _ _ _ _ _ h0 h1 h2 h3]
    interval_cases ch
    · simp only [List.getD_cons_zero]
      rw [chanOf, hash_and_255 b0.1]
      rcases Nat.eq_zero_or_pos v0.pattern with hz | hpos
      · rw [if_neg (by omega), if_pos hz]
      · rw [if_pos hpos, if_neg (by omega)]
    · simp only [List.getD_cons_zero, List.getD_cons_succ]
      rw [chanOf, hash_and_255 b1.1]
      rcases Nat.eq_zero_or_pos v1.pattern with hz | hpos
      · rw [if_neg (by omega), if_pos hz]
      · rw [if_pos hpos, if_neg (by omega)]
    · simp only [List.getD_cons_zero, List.getD_cons_succ]
      rw [chanOf, hash_and_255 b2.1]
      rcases Nat.eq_zero_or_pos v2.pattern with hz | hpos
      · rw [if_neg (by omega), if_pos hz]
      · rw [if_pos hpos, if_neg (by omega)]
    · simp only [List.getD_cons_zero, List.getD_cons_succ]
      rw [chanOf, hash_and_255 b3.1]
      rcases Nat.eq_zero_or_pos v3.pattern with hz | hpos
      · rw [if_neg (by omega), if_pos hz]
      · rw [if_pos hpos, if_neg (by omega)]
  · exact PICO8Sequence.format_parts _
  · intro hz
    rw [hvs, convertSeqVoices_four _ _ _ _ _ h0 h1 h2 h3]
    rw [hvs] at hz
    interval_cases ch
    · simp only [List.getD_cons_zero] at hz ⊢
      rw [chanOf, hash_and_255 b0.1, if_neg (by omega)]
      rfl
    · simp only [List.getD_cons_zero, List.getD_cons_succ] at hz ⊢
      rw [chanOf, hash_and_255 b1.1, if_neg (by omega)]
      rfl
    · simp only [List.getD_cons_zero, List.getD_cons_succ] at hz ⊢
      rw [chanOf, hash_and_255 b2.1, if_neg (by omega)]
      rfl
    · simp only [List.getD_cons_zero, List.getD_cons_succ] at hz ⊢
      rw [chanOf, hash_and_255 b3.1, if_neg (by omega)]
      rfl
  · intro hnz
    rw [hvs, convertSeqVoices_four _ _ _ _ _ h0 h1 h2 h3]
    rw [hvs] at hnz
    interval_cases ch
    · simp only [List.getD_cons_zero] at hnz ⊢
      rw [chanOf, hash_and_255 b0.1, if_pos (by omega)]
      rfl
    · simp only [List.getD_cons_zero, List.getD_cons_succ] at hnz ⊢
      rw [chanOf, hash_and_255 b1.1, if_pos (by omega)]
      rfl
    · simp only [List.getD_cons_zero, List.getD_cons_succ] at hnz ⊢
      rw [chanOf, hash_and_255 b2.1, if_pos (by omega)]
      rfl
    · simp only [List.getD_cons_zero, List.getD_cons_succ] at hnz ⊢
      rw [chanOf, hash_and_255 b3.1, if_pos (by omega)]
      rfl

/-- C6: the number of sequence records is the sequence-table byte size
divided by 13, and the decoded working set consists, in order, of
exactly the records at `sequence_offset + i*13` for the indices `i`
with `start ≤ i` and (`i ≤ end` or `end = -1`); all other indices are
skipped without error. -/
theorem C6_sequence_window {a : Args} {c : List Nat} {m : FCModule}
    (hm : decodeModule a c = .ok m) :
    m.sequence_data_size = readBE c 4 4
      ∧ ((List.range (m.sequence_data_size / 13)).filter (seqWindow a.start a.endArg)).map
          (fun i => decodeSequence (c.drop (m.sequence_offset + i * 13)))
        = m.sequences.map some := by
  obtain ⟨-, -, -, -, hsize, -, -, haux⟩ := decodeModule_ok hm
  obtain ⟨tail, htail, hmap⟩ := decodeSequencesAux_ok _ _ _ _ _ _ _ haux
  rw [List.nil_append] at htail
  rw [htail]
  exact ⟨hsize, hmap⟩

/-- C7: a converted pattern renders as the prefix `"01"`, the
2-hex-digit speed, `"0000"`, followed by the 32 concatenated
5-character row codes; every populated row carries
instrument = info-byte & 7 (below 8), volume 4 and effect 0, and an
empty row renders as `"00000"`. -/
theorem C7_pattern_line_format (contents : List Nat) (patternOffset : Nat)
    (speedArg transposeArg : Int) (key : Nat)
    (hsp0 : 0 ≤ speedArg) (hsp : speedArg < 256) :
    ∃ p : PICO8Pattern,
      p = (convertPattern contents patternOffset speedArg transposeArg key).1
      ∧ p.format = "01".toList ++ fmtHex02Int speedArg ++ "0000".toList
          ++ (p.rows.map renderRowOpt).flatten
      ∧ (fmtHex02Int speedArg).length = 2
      ∧ p.rows.length = 32
      ∧ (∀ r ∈ p.rows, (renderRowOpt r).length = 5)
      ∧ renderRowOpt none = "00000".toList
      ∧ (∀ row : Nat, row < 32 → ∀ rr : P8Row, p.rows.getD row none = some rr →
          renderRowOpt (some rr) = rr.format
            ∧ rr.instrument = (patBlock contents patternOffset key).getD (row * 2 + 1) 0 &&& 7
            ∧ rr.instrument < 8 ∧ rr.volume = 4 ∧ rr.effect = 0) := by
  refine ⟨_, rfl, ?_, fmtHex02Int_length hsp0 hsp, convertPattern_rows_length _ _ _ _ _,
    ?_, rfl, ?_⟩
  · rw [PICO8Pattern.format_concat, convertPattern_speed]
  · intro r hr
    cases r with
    | none => rfl
    | some rr =>
      rw [convertPattern_eq] at hr
      dsimp only at hr
      obtain ⟨row, -, hrow⟩ := List.mem_map.mp hr
      obtain ⟨hn0, hn63, -, hi8, hv, he⟩ := rowConvert_fst_some hrow
      simp only [renderRowOpt]
      exact P8Row_format_length hn0 (by omega) (by omega) (by omega) (by omega)
  · intro row hrow rr hsome
    rw [convertPattern_rows_getD _ _ _ _ _ hrow] at hsome
    obtain ⟨-, -, hinstr, hi8, hv, he⟩ := rowConvert_fst_some hsome
    exact ⟨rfl, hinstr, hi8, hv, he⟩

/-- C8: when the in-scope voices yield more than 64 distinct dedup
keys, processing continues: the overflow warning flag is set (and only
then), every in-scope voice's key remains in the used-pattern set, and
one pattern is rendered per entry — in particular 65 distinct keys give
a set of size 65, the warning, and 65 pattern lines. -/
theorem C8_overflow_warning_nonfatal {a : Args} {c : List Nat} {m : FCModule}
    (hm : decodeModule a c = .ok m) :
    (convert_patterns m).1.length = m.used_patterns.length
      ∧ (m.overflow_warning = true ↔ 64 < m.used_patterns.length)
      ∧ (∀ s ∈ m.sequences, ∀ v ∈ s.voices, v.hash ∈ m.used_patterns)
      ∧ (m.used_patterns.length = 65 →
          m.overflow_warning = true ∧ (convert_patterns m).1.length = 65) := by
  obtain ⟨-, -, hused, hov, -, -, -, -⟩ := decodeModule_ok hm
  have hlen : (convert_patterns m).1.length = m.used_patterns.length := by
    rw [convert_patterns_eq]
    dsimp only
    rw [List.length_map]
  have hiff : m.overflow_warning = true ↔ 64 < m.used_patterns.length := by
    rw [hov]
    simp
  refine ⟨hlen, hiff, ?_, ?_⟩
  · intro s hs v hv
    rw [hused, mem_buildUsedPatterns, mem_voiceKeys]
    exact ⟨s, hs, v, hv, rfl⟩
  · intro h65
    exact ⟨hiff.mpr (by omega), by rw [hlen, h65]⟩

/-- C9: every converted pattern's emitted speed is the user-supplied
speed argument, and the speed bytes decoded into the sequence records
never influence the output: two modules agreeing on everything except
the per-sequence speed fields convert to identical patterns and
identical sequences. -/
theorem C9_sequence_speed_irrelevant (m1 m2 : FCModule)
    (hu1 : m1.used_patterns = buildUsedPatterns m1.sequences)
    (hu2 : m2.used_patterns = buildUsedPatterns m2.sequences)
    (hargs : m1.args = m2.args) (hcont : m1.contents = m2.contents)
    (hpo : m1.pattern_offset = m2.pattern_offset)
    (hvoices : m1.sequences.map Sequence.voices = m2.sequences.map Sequence.voices) :
    convert_patterns m1 = convert_patterns m2
      ∧ convert_sequences m1 = convert_sequences m2
      ∧ (∀ p ∈ (convert_patterns m1).1, p.speed = m1.args.speed) := by
  have hused : m1.used_patterns = m2.used_patterns := by
    rw [hu1, hu2, buildUsedPatterns_eq_foldl, buildUsedPatterns_eq_foldl,
      voiceKeys_eq_map, voiceKeys_eq_map, hvoices]
  refine ⟨?_, ?_, ?_⟩
  · rw [convert_patterns_eq, convert_patterns_eq, hused, hcont, hpo, hargs]
  · rw [convert_sequences_eq_map, convert_sequences_eq_map, hused, hvoices]
  · intro p hp
    rw [convert_patterns_eq] at hp
    dsimp only at hp
    obtain ⟨k, -, hk⟩ := List.mem_map.mp hp
    rw [← hk, convertPattern_speed]

/-- C10: an in-scope voice with pattern-number 0 still contributes its
dedup key to the used-pattern set (counting toward the 64-pattern
limit), still yields a converted pattern decoded from the 64-byte block
at `pattern_offset` itself, and yet no converted sequence channel ever
references that entry. -/
theorem C10_zero_pattern_voice {a : Args} {c : List Nat} {m : FCModule}
    (hm : decodeModule a c = .ok m)
    {s : Sequence} (hs : s ∈ m.sequences) {v : Voice} (hv : v ∈ s.voices)
    (hp : v.pattern = 0) :
    v.hash ∈ m.used_patterns
      ∧ m.used_patterns.indexOf v.hash < m.used_patterns.length
      ∧ (convert_patterns m).1.length = m.used_patterns.length
      ∧ (convert_patterns m).1[m.used_patterns.indexOf v.hash]?
          = some (convertPattern m.contents m.pattern_offset m.args.speed
                    m.args.transpose v.hash).1
      ∧ patBlock m.contents m.pattern_offset v.hash
          = (m.contents.drop m.pattern_offset).take 64
      ∧ (∀ cs ∈ convert_sequences m, ∀ ch : Nat,
          cs.channels.getD ch none ≠ some (m.used_patterns.indexOf v.hash)) := by
  obtain ⟨-, -, hused, -, -, -, -, -⟩ := decodeModule_ok hm
  have hmem : v.hash ∈ m.used_patterns := by
    rw [hused, mem_buildUsedPatterns, mem_voiceKeys]
    exact ⟨s, hs, v, hv, rfl⟩
  have hlt : m.used_patterns.indexOf v.hash < m.used_patterns.length :=
    List.indexOf_lt_length.mpr hmem
  have hzero : v.hash &&& 0xFF = 0 := hash_and_255_of_pattern_zero hp
  refine ⟨hmem, hlt, ?_, ?_, ?_, ?_⟩
  · rw [convert_patterns_eq]
    dsimp only
    rw [List.length_map]
  · rw [convert_patterns_eq]
    dsimp only
    rw [List.getElem?_map, List.getElem?_eq_getElem hlt, List.getElem_indexOf hlt]
    rfl
  · rw [patBlock, patNumOf, hzero]
    norm_num
  · intro cs hcs ch hcontra
    rw [convert_sequences] at hcs
    obtain ⟨s2, hs2, rfl⟩ := List.mem_map.mp hcs
    have hin : some (m.used_patterns.indexOf v.hash)
        ∈ (convertSeqVoices m.used_patterns s2.voices).channels := by
      by_cases hch : ch < (convertSeqVoices m.used_patterns s2.voices).channels.length
      · rw [List.getD_eq_getElem _ _ hch] at hcontra
        rw [← hcontra]
        exact List.getElem_mem hch
      · rw [List.getD_eq_default _ _ (Nat.le_of_not_lt hch)] at hcontra
        cases hcontra
    rcases mem_channels_foldl_seqStep m.used_patterns s2.voices ⟨List.replicate 4 none⟩ _ hin
      with hnone | ⟨w, hw, hwpos, hwx⟩
    · have := List.eq_of_mem_replicate hnone
      cases this
    · have hwm : w.hash ∈ m.used_patterns := by
        rw [hused, mem_buildUsedPatterns, mem_voiceKeys]
        exact ⟨s2, hs2, w, hw, rfl⟩
      have heq : v.hash = w.hash := indexOf_inj_of_mem hmem hwm hwx
      rw [← heq] at hwpos
      omega

/-!
## Witnesses
-/

set_option maxRecDepth 8000 in
/-- Witness for C1: in `demoM`, channel-0 and channel-1 voices share
the triple (1, 0, 0) and map to one index and one pattern. -/
theorem C1_witness :
    ∃ idx, demoM.used_patterns.indexOf (Voice.hash ⟨0, 1, 0, 0⟩) = idx
      ∧ demoM.used_patterns.indexOf (Voice.hash ⟨1, 1, 0, 0⟩) = idx
      ∧ idx < demoM.used_patterns.length
      ∧ (convert_patterns demoM).1[idx]?
          = some (convertPattern demoM.contents demoM.pattern_offset demoM.args.speed
                    demoM.args.transpose (Voice.hash ⟨0, 1, 0, 0⟩)).1 :=
  @C1_equal_triples_same_pattern demoArgs goodBuf demoM (by rfl) demoSeq demoSeq
    (by decide) (by decide) ⟨0, 1, 0, 0⟩ ⟨1, 1, 0, 0⟩ (by decide) (by decide) rfl rfl rfl

/-- Witness for C2: global transpose +12 on note byte 36 with zero
pattern transpose yields 36+24+0+12 = 72, clamped to 63, with the
clamping warning recorded. -/
theorem C2_witness :
    ((convertPattern c36 0 10 12 0).1.rows.getD 0 none = some ⟨63, 5, 4, 0⟩
        ∧ Warning.noteAbove 0 ∈ (convertPattern c36 0 10 12 0).2)
      ∧ (∃ raw : Int,
          raw = ((patBlock c36 0 0).getD (0 * 2) 0 : Int) + 24 + patTransposeOf 0 + 12
          ∧ (convertPattern c36 0 10 12 0).1.rows.getD 0 none
              = some ⟨(if 63 < raw then 63 else if raw < 0 then 0 else raw),
                      (patBlock c36 0 0).getD (0 * 2 + 1) 0 &&& 7, 4, 0⟩
          ∧ (63 < raw → Warning.noteAbove (patNumOf 0) ∈ (convertPattern c36 0 10 12 0).2)
          ∧ (raw < 0 → Warning.noteBelow (patNumOf 0) ∈ (convertPattern c36 0 10 12 0).2)
          ∧ 0 ≤ (if 63 < raw then 63 else if raw < 0 then 0 else raw)
          ∧ (if 63 < raw then 63 else if raw < 0 then 0 else raw) ≤ 63) :=
  ⟨by decide, @C2_note_conversion c36 0 10 12 0 0 (by norm_num) (by decide)⟩

set_option maxRecDepth 8000 in
/-- Witness for C4: the claim instantiated on the module decoded from
`goodBuf`. -/
theorem C4_witness :
    demoM.used_patterns = specFirstSeen (voiceKeys demoM.sequences)
      ∧ demoM.used_patterns.Nodup
      ∧ (∀ k, k ∈ demoM.used_patterns ↔ k ∈ voiceKeys demoM.sequences) :=
  @C4_first_seen_order demoArgs goodBuf demoM (by rfl)

set_option maxRecDepth 8000 in
/-- Witness for C5: in `demoM`'s sequence, channel 2 holds pattern
number 0 and renders as the sentinel `0x43`. -/
theorem C5_witness :
    ∃ cs, (convert_sequences demoM)[0]? = some cs
      ∧ cs.channels.getD 2 none
          = (if ((demoM.sequences.get ⟨0, by decide⟩).voices.getD 2 ⟨0, 0, 0, 0⟩).pattern = 0
             then none
             else some (demoM.used_patterns.indexOf
                    ((demoM.sequences.get ⟨0, by decide⟩).voices.getD 2 ⟨0, 0, 0, 0⟩).hash))
      ∧ cs.format = "00 ".toList
          ++ channelCode (cs.channels.getD 0 none) 0
          ++ channelCode (cs.channels.getD 1 none) 1
          ++ channelCode (cs.channels.getD 2 none) 2
          ++ channelCode (cs.channels.getD 3 none) 3
      ∧ (((demoM.sequences.get ⟨0, by decide⟩).voices.getD 2 ⟨0, 0, 0, 0⟩).pattern = 0 →
          channelCode (cs.channels.getD 2 none) 2 = fmtHex02Nat (0x40 + 2 + 1))
      ∧ (((demoM.sequences.get ⟨0, by decide⟩).voices.getD 2 ⟨0, 0, 0, 0⟩).pattern ≠ 0 →
          channelCode (cs.channels.getD 2 none) 2
            = fmtHex02Nat (demoM.used_patterns.indexOf
                ((demoM.sequences.get ⟨0, by decide⟩).voices.getD 2 ⟨0, 0, 0, 0⟩).hash)) :=
  @C5_channel_codes demoArgs goodBuf demoM (by rfl) (by decide) 0 (by decide) 2 (by decide)

set_option maxRecDepth 8000 in
/-- Witness for C6: the claim instantiated on the module decoded from
`goodBuf` (sequence table size 13, one record, full window). -/
theorem C6_witness :
    demoM.sequence_data_size = readBE goodBuf 4 4
      ∧ ((List.range (demoM.sequence_data_size / 13)).filter
            (seqWindow demoArgs.start demoArgs.endArg)).map
          (fun i => decodeSequence (goodBuf.drop (demoM.sequence_offset + i * 13)))
        = demoM.sequences.map some :=
  @C6_sequence_window demoArgs goodBuf demoM (by rfl)

/-- Witness for C7: the pattern-line format claim instantiated at speed
10, transpose 12, dedup key 1 over the block `c36`. -/
theorem C7_witness :
    ∃ p : PICO8Pattern,
      p = (convertPattern c36 0 10 12 1).1
      ∧ p.format = "01".toList ++ fmtHex02Int 10 ++ "0000".toList
          ++ (p.rows.map renderRowOpt).flatten
      ∧ (fmtHex02Int 10).length = 2
      ∧ p.rows.length = 32
      ∧ (∀ r ∈ p.rows, (renderRowOpt r).length = 5)
      ∧ renderRowOpt none = "00000".toList
      ∧ (∀ row : Nat, row < 32 → ∀ rr : P8Row, p.rows.getD row none = some rr →
          renderRowOpt (some rr) = rr.format
            ∧ rr.instrument = (patBlock c36 0 1).getD (row * 2 + 1) 0 &&& 7
            ∧ rr.instrument < 8 ∧ rr.volume = 4 ∧ rr.effect = 0) :=
  @C7_pattern_line_format c36 0 10 12 1 (by norm_num) (by norm_num)

set_option maxRecDepth 16000 in
/-- Witness for C8: `bigM` holds 65 distinct dedup keys, sets the
overflow warning, and still renders 65 pattern lines. -/
theorem C8_witness :
    bigM.used_patterns.length = 65
      ∧ ((convert_patterns bigM).1.length = bigM.used_patterns.length
        ∧ (bigM.overflow_warning = true ↔ 64 < bigM.used_patterns.length)
        ∧ (∀ s ∈ bigM.sequences, ∀ v ∈ s.voices, v.hash ∈ bigM.used_patterns)
        ∧ (bigM.used_patterns.length = 65 →
            bigM.overflow_warning = true ∧ (convert_patterns bigM).1.length = 65)) :=
  ⟨by decide, @C8_overflow_warning_nonfatal demoArgs bigBuf bigM (by rfl)⟩

/-- Witness for C9: two modules identical except for the sequence speed
byte (3 vs 7) convert identically, with every pattern at the argument
speed. -/
theorem C9_witness :
    convert_patterns spModA = convert_patterns spModB
      ∧ convert_sequences spModA = convert_sequences spModB
      ∧ (∀ p ∈ (convert_patterns spModA).1, p.speed = spModA.args.speed) :=
  C9_sequence_speed_irrelevant spModA spModB rfl rfl rfl rfl rfl rfl

set_option maxRecDepth 8000 in
/-- Witness for C10: `demoM`'s channel-2 voice has pattern number 0;
its key 0 is in the used-pattern set, converts from the block at
`pattern_offset`, and no converted sequence references its index. -/
theorem C10_witness :
    Voice.hash ⟨2, 0, 0, 0⟩ ∈ demoM.used_patterns
      ∧ demoM.used_patterns.indexOf (Voice.hash ⟨2, 0, 0, 0⟩) < demoM.used_patterns.length
      ∧ (convert_patterns demoM).1.length = demoM.used_patterns.length
      ∧ (convert_patterns demoM).1[demoM.used_patterns.indexOf (Voice.hash ⟨2, 0, 0, 0⟩)]?
          = some (convertPattern demoM.contents demoM.pattern_offset demoM.args.speed
                    demoM.args.transpose (Voice.hash ⟨2, 0, 0, 0⟩)).1
      ∧ patBlock demoM.contents demoM.pattern_offset (Voice.hash ⟨2, 0, 0, 0⟩)
          = (demoM.contents.drop demoM.pattern_offset).take 64
      ∧ (∀ cs ∈ convert_sequences demoM, ∀ ch : Nat,
          cs.channels.getD ch none
            ≠ some (demoM.used_patterns.indexOf (Voice.hash ⟨2, 0, 0, 0⟩))) :=
  @C10_zero_pattern_voice demoArgs goodBuf demoM (by rfl) demoSeq (by decide)
    ⟨2, 0, 0, 0⟩ (by decide) rfl

end Wwislop8
